import Mathlib

/-!
Verification of the log-aggregation and deployment core of
`synth_tui/deploy.py` (classes `LogAggregator`, `StreamCapture`, the
function `_validate_localapi` and the orchestrator `deploy_localapi`).

Python strings are modelled as `List Char`, dicts as insertion-ordered
association lists, machine-level concurrency as explicit interleavings of
atomic queue operations, and all external collaborators (auth, server,
tunnel, health check) as outcome parameters.
-/

set_option linter.unusedVariables false

/-- Python strings, modelled as lists of characters. -/
abbrev Str := List Char

/-- The whitespace characters recognised by Python `str.strip` / `str.rstrip`
(space, tab, newline, carriage return, vertical tab, form feed). -/
def pyIsSpace (c : Char) : Bool :=
  c = ' ' || c = '\t' || c = '\n' || c = '\r' || c.toNat = 11 || c.toNat = 12

/-- Python `str.rstrip()`: remove trailing whitespace. -/
def rstrip (s : Str) : Str := (s.reverse.dropWhile pyIsSpace).reverse

/-- Python truthiness of `line.strip()`: a string is blank iff every
character is whitespace (so `strip` yields the empty, falsy string). -/
def isBlank (s : Str) : Bool := s.all pyIsSpace

/-- Decimal digit character for `n % 10`. -/
def digitChar : Nat → Char
  | 0 => '0'
  | 1 => '1'
  | 2 => '2'
  | 3 => '3'
  | 4 => '4'
  | 5 => '5'
  | 6 => '6'
  | 7 => '7'
  | 8 => '8'
  | _ => '9'

/-- Fuel-indexed decimal conversion (structural recursion so the kernel can
evaluate it; the fuel is an upper bound on the number of digits). -/
def natStrF : Nat → Nat → Str
  | 0, _ => []
  | fuel + 1, n =>
      if n < 10 then [digitChar n]
      else natStrF fuel (n / 10) ++ [digitChar (n % 10)]

/-- Decimal representation of a natural number, as produced by Python
string formatting of a nonnegative integer (`n + 1` units of fuel always
suffice since the argument shrinks by a factor of ten each step). -/
def natStr (n : Nat) : Str := natStrF (n + 1) n

/-- Decimal representation of an integer. -/
def intStr : Int → Str
  | .ofNat n => natStr n
  | .negSucc n => '-' :: natStr (n + 1)

theorem digitChar_ne_newline (n : Nat) : digitChar n ≠ '\n' := by
  unfold digitChar
  split <;> decide

theorem newline_not_mem_natStrF (fuel n : Nat) : '\n' ∉ natStrF fuel n := by
  induction fuel generalizing n with
  | zero => simp [natStrF]
  | succ fuel ih =>
    rw [natStrF]
    split
    · intro hmem
      simp at hmem
      exact digitChar_ne_newline n hmem.symm
    · intro hmem
      rcases List.mem_append.mp hmem with h1 | h2
      · exact ih (n / 10) h1
      · simp at h2
        exact digitChar_ne_newline (n % 10) h2.symm

theorem newline_not_mem_natStr (n : Nat) : '\n' ∉ natStr n :=
  newline_not_mem_natStrF (n + 1) n

theorem newline_not_mem_intStr (i : Int) : '\n' ∉ intStr i := by
  cases i with
  | ofNat n => exact newline_not_mem_natStr n
  | negSucc n =>
    simp [intStr]
    exact fun h => newline_not_mem_natStr (n + 1) h

/-- JSON values appearing in log entries. Timestamps and ports are modelled
as integers; the claims under verification never inspect numeric formatting. -/
inductive JVal where
  | s (v : Str)
  | n (v : Int)
  | b (v : Bool)
  | null
  deriving DecidableEq, Repr

/-- A Python dict with string keys, modelled as an insertion-ordered
association list (CPython dicts preserve insertion order). -/
abbrev Dict := List (Str × JVal)

/-- Python dict assignment `d[k] = v`: replaces the value in place when the
key is present (keeping its position), otherwise appends the pair. -/
def setKey : Dict → Str → JVal → Dict
  | [], k, v => [(k, v)]
  | (k0, v0) :: rest, k, v =>
      if k0 = k then (k, v) :: rest else (k0, v0) :: setKey rest k v

/-- Python `d.get(k)`: first value bound to the key, if any. -/
def lookupKey : Dict → Str → Option JVal
  | [], _ => none
  | (k0, v0) :: rest, k => if k0 = k then some v0 else lookupKey rest k

theorem lookupKey_setKey_self (d : Dict) (k : Str) (v : JVal) :
    lookupKey (setKey d k v) k = some v := by
  induction d with
  | nil => simp [setKey, lookupKey]
  | cons p rest ih =>
    obtain ⟨k0, v0⟩ := p
    by_cases h : k0 = k
    · simp [setKey, h, lookupKey]
    · simp [setKey, h, lookupKey, ih]

theorem lookupKey_setKey_ne (d : Dict) (k k1 : Str) (v : JVal) (hne : k1 ≠ k) :
    lookupKey (setKey d k v) k1 = lookupKey d k1 := by
  induction d with
  | nil => simp [setKey, lookupKey, hne.symm]
  | cons p rest ih =>
    obtain ⟨k0, v0⟩ := p
    by_cases h : k0 = k
    · subst h
      simp [setKey, lookupKey, hne.symm]
    · by_cases h1 : k0 = k1
      · subst h1
        simp [setKey, h, lookupKey]
      · simp [setKey, h, lookupKey, h1, ih]

theorem setKey_setKey_same (d : Dict) (k : Str) (v : JVal) :
    setKey (setKey d k v) k v = setKey d k v := by
  induction d with
  | nil => simp [setKey]
  | cons p rest ih =>
    obtain ⟨k0, v0⟩ := p
    by_cases h : k0 = k
    · simp [setKey, h]
    · simp [setKey, h, ih]

/-- Hexadecimal digit character (for JSON control-character escapes). -/
def hexChar : Nat → Char
  | 10 => 'a'
  | 11 => 'b'
  | 12 => 'c'
  | 13 => 'd'
  | 14 => 'e'
  | 15 => 'f'
  | k => digitChar k

/-- JSON string escaping as performed by `json.dumps`: quote, backslash and
control characters are escaped (common ones by shorthand, the rest by a
unicode escape); all other characters pass through. -/
def escChar (c : Char) : Str :=
  if c = '"' then ['\\', '"']
  else if c = '\\' then ['\\', '\\']
  else if c = '\n' then ['\\', 'n']
  else if c = '\t' then ['\\', 't']
  else if c = '\r' then ['\\', 'r']
  else if c.toNat = 8 then ['\\', 'b']
  else if c.toNat = 12 then ['\\', 'f']
  else if c.toNat < 32 then
    ['\\', 'u', '0', '0', hexChar (c.toNat / 16), hexChar (c.toNat % 16)]
  else [c]

theorem hexChar_ne_newline (n : Nat) : hexChar n ≠ '\n' := by
  unfold hexChar
  split <;> first | decide | exact digitChar_ne_newline _

theorem newline_not_mem_escChar (c : Char) : '\n' ∉ escChar c := by
  unfold escChar
  split_ifs with h1 h2 h3 h4 h5 h6 h7 h8 <;> intro hmem <;> simp at hmem
  · rcases hmem with h | h
    · exact hexChar_ne_newline _ h.symm
    · exact hexChar_ne_newline _ h.symm
  · exact h3 hmem.symm

/-- The character code of an opening brace. -/
def lbrace : Char := Char.ofNat 123

/-- The character code of a closing brace. -/
def rbrace : Char := Char.ofNat 125

/-- Serialization of a JSON value, mirroring `json.dumps`. -/
def serJVal : JVal → Str
  | .s v => '"' :: v.flatMap escChar ++ ['"']
  | .n i => intStr i
  | .b true => "true".data
  | .b false => "false".data
  | .null => "null".data

/-- Serialization of one key/value pair of an object. -/
def serPair (p : Str × JVal) : Str :=
  '"' :: p.1.flatMap escChar ++ ['"', ':', ' '] ++ serJVal p.2

/-- Serialization of a JSON object with the default `json.dumps`
separators (", " between items, ": " inside a pair). -/
def serObj (d : Dict) : Str :=
  lbrace :: List.intercalate [',', ' '] (d.map serPair) ++ [rbrace]

theorem newline_not_mem_bind_escChar (s : Str) : '\n' ∉ s.flatMap escChar := by
  intro h
  rw [List.mem_flatMap] at h
  obtain ⟨c, _, hc⟩ := h
  exact newline_not_mem_escChar c hc

theorem newline_not_mem_serJVal (v : JVal) : '\n' ∉ serJVal v := by
  cases v with
  | s v =>
    simp only [serJVal]
    intro h
    rcases List.mem_cons.mp h with h | h
    · exact absurd h.symm (by decide)
    · rcases List.mem_append.mp h with h | h
      · exact newline_not_mem_bind_escChar v h
      · simp at h
  | n i => exact newline_not_mem_intStr i
  | b bv => cases bv <;> decide
  | null => decide

theorem newline_not_mem_serPair (p : Str × JVal) : '\n' ∉ serPair p := by
  simp only [serPair]
  intro h
  rcases List.mem_cons.mp h with h | h
  · exact absurd h.symm (by decide)
  · rcases List.mem_append.mp h with h | h
    · rcases List.mem_append.mp h with h | h
      · exact newline_not_mem_bind_escChar p.1 h
      · simp at h
    · exact newline_not_mem_serJVal p.2 h

theorem mem_intersperse_cases {α : Type _} (sep : α) :
    ∀ (l : List α) (x : α), x ∈ l.intersperse sep → x = sep ∨ x ∈ l
  | [], x, h => by simp [List.intersperse] at h
  | [a], x, h => by
      simp [List.intersperse] at h
      exact Or.inr (by simp [h])
  | a :: b :: tl, x, h => by
      simp only [List.intersperse] at h
      rcases List.mem_cons.mp h with h | h
      · exact Or.inr (by simp [h])
      · rcases List.mem_cons.mp h with h | h
        · exact Or.inl h
        · rcases mem_intersperse_cases sep (b :: tl) x h with h | h
          · exact Or.inl h
          · exact Or.inr (List.mem_cons_of_mem _ h)

theorem newline_not_mem_serObj (d : Dict) : '\n' ∉ serObj d := by
  simp only [serObj]
  intro h
  rcases List.mem_cons.mp h with h | h
  · exact absurd h.symm (by decide)
  · rcases List.mem_append.mp h with h | h
    · rw [List.intercalate] at h
      rw [List.mem_flatten] at h
      obtain ⟨l, hl, hmem⟩ := h
      rcases mem_intersperse_cases _ _ _ hl with h | h
      · subst h
        simp at hmem
      · obtain ⟨p, hp, rfl⟩ := List.mem_map.mp h
        exact newline_not_mem_serPair p hmem
    · simp at h
      exact absurd h (by decide)

/-- Split a string at its first newline: `some (line, rest)` when a newline
exists (mirroring Python `s.split(chr(10), 1)` with a hit), `none` otherwise. -/
def findNl : Str → Option (Str × Str)
  | [] => none
  | c :: cs =>
      if c = '\n' then some ([], cs)
      else (findNl cs).map (fun p => (c :: p.1, p.2))

theorem findNl_eq_some {cs l r : Str} (h : findNl cs = some (l, r)) :
    cs = l ++ '\n' :: r := by
  induction cs generalizing l r with
  | nil => simp [findNl] at h
  | cons c cs ih =>
    by_cases hc : c = '\n'
    · subst hc
      simp [findNl] at h
      obtain ⟨h1, h2⟩ := h
      subst h1; subst h2
      rfl
    · rw [findNl, if_neg hc] at h
      match h2 : findNl cs with
      | none => rw [h2] at h; simp at h
      | some (l2, r2) =>
        rw [h2] at h
        rw [Option.map_some'] at h
        cases h
        simp [ih h2]

theorem findNl_rest_lt {cs l r : Str} (h : findNl cs = some (l, r)) :
    r.length < cs.length := by
  have := findNl_eq_some h
  subst this
  simp
  omega

/-- Fuel-indexed newline decomposition (each loop iteration consumes at
least one character, so fuel equal to the length always suffices). -/
def splitNlF : Nat → Str → List Str
  | 0, cs => [cs]
  | fuel + 1, cs =>
      match findNl cs with
      | none => [cs]
      | some (line, rest) => line :: splitNlF fuel rest

/-- The full decomposition of a string into newline-separated segments,
as Python `s.split(chr(10))`: always a nonempty list, the last element
being the trailing fragment after the final newline. -/
def splitNl (cs : Str) : List Str := splitNlF cs.length cs

/-- Fuel-indexed loop of `StreamCapture.write` (deploy.py lines 156-159). -/
def procBufF : Nat → Str → List Str × Str
  | 0, cs => ([], cs)
  | fuel + 1, cs =>
      match findNl cs with
      | none => ([], cs)
      | some (line, rest) =>
          let p := procBufF fuel rest
          (if isBlank line then p.1 else rstrip line :: p.1, p.2)

/-- The loop body of `StreamCapture.write` (deploy.py lines 156-159): split
the buffer at each newline, forwarding every complete non-blank line
right-stripped; return the forwarded lines and the remaining buffer. -/
def procBuf (cs : Str) : List Str × Str := procBufF cs.length cs

theorem findNl_none_of_nil : findNl [] = none := rfl

theorem splitNlF_stable :
    ∀ (f1 f2 : Nat) (cs : Str), cs.length ≤ f1 → cs.length ≤ f2 →
      splitNlF f1 cs = splitNlF f2 cs := by
  intro f1
  induction f1 with
  | zero =>
    intro f2 cs h1 h2
    have : cs = [] := List.eq_nil_of_length_eq_zero (by omega)
    subst this
    cases f2 <;> simp [splitNlF, findNl]
  | succ f1 ih =>
    intro f2 cs h1 h2
    cases f2 with
    | zero =>
      have : cs = [] := List.eq_nil_of_length_eq_zero (by omega)
      subst this
      simp [splitNlF, findNl]
    | succ f2 =>
      rw [splitNlF, splitNlF]
      cases h : findNl cs with
      | none => rfl
      | some p =>
        obtain ⟨line, rest⟩ := p
        have hlt : rest.length < cs.length := findNl_rest_lt h
        exact congrArg (fun x => line :: x) (ih f2 rest (by omega) (by omega))

theorem procBufF_stable :
    ∀ (f1 f2 : Nat) (cs : Str), cs.length ≤ f1 → cs.length ≤ f2 →
      procBufF f1 cs = procBufF f2 cs := by
  intro f1
  induction f1 with
  | zero =>
    intro f2 cs h1 h2
    have : cs = [] := List.eq_nil_of_length_eq_zero (by omega)
    subst this
    cases f2 <;> simp [procBufF, findNl]
  | succ f1 ih =>
    intro f2 cs h1 h2
    cases f2 with
    | zero =>
      have : cs = [] := List.eq_nil_of_length_eq_zero (by omega)
      subst this
      simp [procBufF, findNl]
    | succ f2 =>
      rw [procBufF, procBufF]
      cases h : findNl cs with
      | none => rfl
      | some p =>
        obtain ⟨line, rest⟩ := p
        have hlt : rest.length < cs.length := findNl_rest_lt h
        exact congrArg
          (fun p => (if isBlank line then p.1 else rstrip line :: p.1, p.2))
          (ih f2 rest (by omega) (by omega))

/-- `StreamCapture.write(data)` (deploy.py lines 151-162): appends `data` to
the internal buffer, forwards complete non-blank lines to the aggregator,
and always writes the original `data` unmodified to the wrapped stream.
Returns (forwarded log messages, new buffer, data written to the original). -/
def streamCaptureWrite (buf data : Str) : List Str × Str × Str :=
  if data = [] then ([], buf, data)
  else
    let p := procBuf (buf ++ data)
    (p.1, p.2, data)

theorem splitNl_of_none {cs : Str} (h : findNl cs = none) : splitNl cs = [cs] := by
  rw [splitNl]
  cases hl : cs.length with
  | zero => simp [splitNlF]
  | succ k => simp [splitNlF, h]

theorem splitNl_of_some {cs l r : Str} (h : findNl cs = some (l, r)) :
    splitNl cs = l :: splitNl r := by
  have hcs := findNl_eq_some h
  have hlen : cs.length = l.length + 1 + r.length := by
    subst hcs; simp; omega
  rw [splitNl, splitNl, hlen]
  rw [show l.length + 1 + r.length = (l.length + r.length) + 1 by omega]
  rw [splitNlF, h]
  exact congrArg (fun x => l :: x)
    (splitNlF_stable (l.length + r.length) r.length r (by omega) (by omega))

theorem procBuf_of_none {cs : Str} (h : findNl cs = none) : procBuf cs = ([], cs) := by
  rw [procBuf]
  cases hl : cs.length with
  | zero =>
    have : cs = [] := List.eq_nil_of_length_eq_zero hl
    subst this
    simp [procBufF]
  | succ k => simp [procBufF, h]

theorem procBuf_of_some {cs l r : Str} (h : findNl cs = some (l, r)) :
    procBuf cs =
      (if isBlank l then (procBuf r).1 else rstrip l :: (procBuf r).1,
        (procBuf r).2) := by
  have hcs := findNl_eq_some h
  have hlen : cs.length = l.length + 1 + r.length := by
    subst hcs; simp; omega
  rw [procBuf, procBuf, hlen]
  rw [show l.length + 1 + r.length = (l.length + r.length) + 1 by omega]
  rw [procBufF, h]
  exact congrArg
    (fun p => (if isBlank l then p.1 else rstrip l :: p.1, p.2))
    (procBufF_stable (l.length + r.length) r.length r (by omega) (by omega))

theorem splitNl_ne_nil (cs : Str) : splitNl cs ≠ [] := by
  cases h : findNl cs with
  | none => rw [splitNl_of_none h]; simp
  | some p =>
    obtain ⟨l, r⟩ := p
    rw [splitNl_of_some h]
    simp

theorem procBuf_characterization (cs : Str) :
    procBuf cs =
      (((splitNl cs).dropLast.filter (fun l => !isBlank l)).map rstrip,
        (splitNl cs).getLastD []) := by
  suffices H : ∀ (n : Nat) (cs : Str), cs.length = n →
      procBuf cs =
        (((splitNl cs).dropLast.filter (fun l => !isBlank l)).map rstrip,
          (splitNl cs).getLastD []) from H cs.length cs rfl
  intro n
  induction n using Nat.strong_induction_on with
  | _ n ih =>
    intro cs hn
    cases h : findNl cs with
    | none =>
      rw [procBuf_of_none h, splitNl_of_none h]
      simp
    | some p =>
      obtain ⟨line, rest⟩ := p
      rw [procBuf_of_some h, splitNl_of_some h]
      have hlt : rest.length < cs.length := findNl_rest_lt h
      have hrec := ih rest.length (hn ▸ hlt) rest rfl
      rw [hrec]
      have hne := splitNl_ne_nil rest
      rw [Prod.mk.injEq]
      constructor
      · rw [List.dropLast_cons_of_ne_nil hne]
        by_cases hb : isBlank line <;> simp [hb]
      · rw [List.getLastD_cons]
        cases hsp : splitNl rest with
        | nil => exact absurd hsp hne
        | cons a tl => simp [List.getLastD]

/-- The apostrophe character (used inside validator messages). -/
def apos : Char := Char.ofNat 39

/-- Outcome of calling a Python function: it raises `NotImplementedError`,
raises some other exception, or returns a value. The carried string is the
message `str(e)` of the exception. -/
inductive PyRes (α : Type) where
  | notImpl (msg : Str)
  | err (msg : Str)
  | ok (v : α)
  deriving DecidableEq

/-- The `app` attribute of a candidate LocalAPI module: whether it is a
FastAPI instance, its type name otherwise, and the set of route paths. -/
structure AppModel where
  isFastAPI : Bool
  typeName : Str
  routes : List Str
  deriving DecidableEq

/-- A value returned by `get_dataset_size()`: a Python int, or a value of
some other type (carrying its type name). -/
inductive DSResult where
  | int (n : Int)
  | other (typeName : Str)
  deriving DecidableEq

/-- A value returned by `get_sample(0)`: a dict or something else. -/
inductive SampleResult where
  | dict
  | other (typeName : Str)
  deriving DecidableEq

/-- A value returned by `score_response(...)`: a number (int or float) or
something else. -/
inductive ScoreResult where
  | num
  | other (typeName : Str)
  deriving DecidableEq

/-- A module attribute that may or may not be callable, together with the
outcome of calling it (with seed 0 for `get_sample`). -/
structure PyAttr (α : Type) where
  callable : Bool
  call : PyRes α
  deriving DecidableEq

/-- The `score_response` attribute: callability, declared parameter names,
and the outcome of invoking it on the fixed dummy response/sample pair. -/
structure ScorerAttr where
  callable : Bool
  params : List Str
  call : PyRes ScoreResult
  deriving DecidableEq

/-- A dynamically loaded LocalAPI module as `_validate_localapi` observes
it: each optional field is `none` exactly when `hasattr` is false. -/
structure ModuleModel where
  app : Option AppModel
  get_dataset_size : Option (PyAttr DSResult)
  get_sample : Option (PyAttr SampleResult)
  score_response : Option ScorerAttr
  deriving DecidableEq

/-- Message for a missing `app` attribute (deploy.py line 240). -/
def msgNoApp : Str :=
  "LocalAPI must define an ".data ++ [apos] ++ "app".data ++ [apos] ++ " variable".data

/-- Message for an `app` of the wrong type (deploy.py line 244). -/
def msgNotFastAPI (ty : Str) : Str :=
  [apos] ++ "app".data ++ [apos] ++ " must be a FastAPI instance, got ".data ++ ty

/-- Message for a missing `/health` route (deploy.py line 249). -/
def msgNoHealth : Str :=
  "LocalAPI missing /health endpoint (use create_local_api() to create your app)".data

/-- Message for a missing `/rollout` route (deploy.py line 251). -/
def msgNoRollout : Str :=
  "LocalAPI missing /rollout endpoint (use create_local_api() to create your app)".data

/-- Type-error message of the dataset-size check (deploy.py line 260). -/
def dsTypeMsg (ty : Str) : Str :=
  "get_dataset_size() must return an int, got ".data ++ ty

/-- Range-error message of the dataset-size check (deploy.py line 262). -/
def dsRangeMsg (n : Int) : Str :=
  "get_dataset_size() must return a positive number, got ".data ++ intStr n

/-- Not-implemented message of the dataset-size check (deploy.py line 264). -/
def dsNotImplMsg (e : Str) : Str :=
  "get_dataset_size() not implemented: ".data ++ e

/-- Generic-failure message of the dataset-size check (deploy.py line 266). -/
def dsFailedMsg (e : Str) : Str :=
  "get_dataset_size() failed: ".data ++ e

/-- Type-error message of the sample check (deploy.py line 276). -/
def sampleTypeMsg (ty : Str) : Str :=
  "get_sample() must return a dict, got ".data ++ ty

/-- Not-implemented message of the sample check (deploy.py line 278). -/
def sampleNotImplMsg (e : Str) : Str :=
  "get_sample() not implemented: ".data ++ e

/-- Generic-failure message of the sample check (deploy.py line 280). -/
def sampleFailedMsg (e : Str) : Str :=
  "get_sample(0) failed: ".data ++ e

/-- Python repr of a list of strings, as interpolated into the scorer
signature message. -/
def pyReprStrList (xs : List Str) : Str :=
  "[".data ++
    List.intercalate [',', ' '] (xs.map (fun s => [apos] ++ s ++ [apos])) ++
    "]".data

/-- Signature-error message of the scorer check (deploy.py line 290). -/
def scoreSigMsg (params : List Str) : Str :=
  "score_response() must accept (response, sample), got ".data ++ pyReprStrList params

/-- Type-error message of the scorer check (deploy.py line 296). -/
def scoreTypeMsg (ty : Str) : Str :=
  "score_response() must return a number, got ".data ++ ty

/-- Not-implemented message of the scorer check (deploy.py line 298). -/
def scoreNotImplMsg (e : Str) : Str :=
  "score_response() not implemented: ".data ++ e

/-- Checks 1 and 2 of `_validate_localapi` (deploy.py lines 239-251):
`app` exists, is a FastAPI instance, and declares /health and /rollout. -/
def checkApp (m : ModuleModel) : Option Str :=
  match m.app with
  | none => some msgNoApp
  | some a =>
      if ¬ a.isFastAPI then some (msgNotFastAPI a.typeName)
      else if "/health".data ∉ a.routes then some msgNoHealth
      else if "/rollout".data ∉ a.routes then some msgNoRollout
      else none

/-- Check 3 of `_validate_localapi` (deploy.py lines 254-266): if the module
has a callable `get_dataset_size`, probing it must yield a positive int;
a NotImplementedError, any other exception, a non-int and a non-positive
int each produce their own message. -/
def checkDatasetSize (m : ModuleModel) : Option Str :=
  match m.get_dataset_size with
  | none => none
  | some a =>
      if a.callable then
        match a.call with
        | .notImpl e => some (dsNotImplMsg e)
        | .err e => some (dsFailedMsg e)
        | .ok (.int n) => if n ≤ 0 then some (dsRangeMsg n) else none
        | .ok (.other ty) => some (dsTypeMsg ty)
      else none

/-- Check 4 of `_validate_localapi` (deploy.py lines 269-280): if the module
has a callable `get_sample`, calling it with seed 0 must return a dict. -/
def checkSample (m : ModuleModel) : Option Str :=
  match m.get_sample with
  | none => none
  | some a =>
      if a.callable then
        match a.call with
        | .notImpl e => some (sampleNotImplMsg e)
        | .err e => some (sampleFailedMsg e)
        | .ok .dict => none
        | .ok (.other ty) => some (sampleTypeMsg ty)
      else none

/-- Check 5 of `_validate_localapi` (deploy.py lines 283-301): if the module
has a callable `score_response`, it must declare at least two parameters;
probing it with dummy data must return a number if it returns at all, a
NotImplementedError fails validation, but any other exception is tolerated. -/
def checkScore (m : ModuleModel) : Option Str :=
  match m.score_response with
  | none => none
  | some sc =>
      if sc.callable then
        if sc.params.length < 2 then some (scoreSigMsg sc.params)
        else
          match sc.call with
          | .notImpl e => some (scoreNotImplMsg e)
          | .err _ => none
          | .ok .num => none
          | .ok (.other ty) => some (scoreTypeMsg ty)
      else none

/-- The function `_validate_localapi` (deploy.py lines 230-303): runs the
checks in source order, short-circuiting on the first failure; returns
`none` when the module is valid. -/
def validate_localapi (m : ModuleModel) : Option Str :=
  match checkApp m with
  | some e => some e
  | none =>
  match checkDatasetSize m with
  | some e => some e
  | none =>
  match checkSample m with
  | some e => some e
  | none => checkScore m

theorem append_ne_append_of_getElem {p q : Str} (i : Nat)
    (hip : i < p.length) (hiq : i < q.length) (hne : p[i] ≠ q[i]) :
    ∀ (a b : Str), p ++ a ≠ q ++ b := by
  intro a b h
  apply hne
  have hh := congrArg (fun l => l[i]?) h
  simp only at hh
  rw [List.getElem?_append, List.getElem?_append] at hh
  rw [if_pos hip, if_pos hiq] at hh
  rw [List.getElem?_eq_getElem hip, List.getElem?_eq_getElem hiq] at hh
  exact Option.some_injective _ hh

theorem dsNotImplMsg_ne_dsFailedMsg (e1 e2 : Str) :
    dsNotImplMsg e1 ≠ dsFailedMsg e2 := by
  apply append_ne_append_of_getElem 19 (by decide) (by decide)
  decide

/-- State of one `LogAggregator` session together with its observable
output.  `running` is the `_running` flag, `exited` records that the writer
thread has left its loop, `queue` is the FIFO `queue.Queue` (a `none` is the
sentinel pushed by `stop`), `heap` holds the producer-allocated entry dicts,
`written` the stamped dicts in primary-stream output order, and
`deployWritten`/`serveWritten` the dicts mirrored into the two persisted
files (only when `persist` holds, i.e. a `persist_dir` was given). -/
structure SinkState where
  deployment_id : Str
  persist : Bool
  running : Bool
  exited : Bool
  heap : List Dict
  queue : List (Option Nat)
  written : List Dict
  deployWritten : List Dict
  serveWritten : List Dict
  deriving DecidableEq

/-- The key stamped by the writer. -/
def depKey : Str := "deployment_id".data

/-- The `type` key of an entry. -/
def typeKey : Str := "type".data

/-- Stamp an entry with the session id, as `_writer_loop` does at dequeue
time (deploy.py line 82). -/
def stampEntry (did : Str) (d : Dict) : Dict := setKey d depKey (.s did)

/-- Whether an entry satisfies `entry.get(k) == v` for a string value. -/
def hasTypeVal (d : Dict) (v : Str) : Bool := lookupKey d typeKey = some (.s v)

/-- One iteration of `LogAggregator._writer_loop` (deploy.py lines 73-101):
check the loop condition `self._running or not self.queue.empty()`; if it
fails, leave the loop; otherwise pull the next item (a timeout on an empty
queue just re-loops), skip the `None` sentinel, and for a real entry stamp
`deployment_id` in place, write the JSON line to the primary stream, and
mirror it into the deploy file if `type == status` or the serve file if
`type == log`. -/
def writerStep (s : SinkState) : SinkState :=
  if s.exited then s
  else if ¬ s.running ∧ s.queue = [] then { s with exited := true }
  else
    match s.queue with
    | [] => s
    | none :: rest => { s with queue := rest }
    | some r :: rest =>
        let d := s.heap.getD r []
        let d1 := stampEntry s.deployment_id d
        { s with
            queue := rest,
            heap := s.heap.set r d1,
            written := s.written ++ [d1],
            deployWritten :=
              s.deployWritten ++
                (if s.persist ∧ hasTypeVal d1 "status".data then [d1] else []),
            serveWritten :=
              s.serveWritten ++
                (if s.persist ∧ hasTypeVal d1 "log".data then [d1] else []) }

/-- Events that can act on a live aggregator: a producer `put` (deploy.py
lines 103-105, allocating the producer-owned dict and enqueueing a
reference to it), one writer-loop iteration, or `stop()` (deploy.py lines
130-135: clear `_running` and push the `None` sentinel). The producer tag
records which producer issued the `put`; it has no effect on the state. -/
inductive SinkOp where
  | put (producer : Nat) (d : Dict)
  | writer
  | stop
  deriving DecidableEq

/-- Apply one operation to the sink state. -/
def sinkStep (s : SinkState) : SinkOp → SinkState
  | .put _ d =>
      { s with heap := s.heap ++ [d], queue := s.queue ++ [some s.heap.length] }
  | .writer => writerStep s
  | .stop => { s with running := false, queue := s.queue ++ [none] }

/-- The freshly constructed aggregator (deploy.py lines 43-71). -/
def initSink (did : Str) (persist : Bool) : SinkState :=
  { deployment_id := did, persist := persist, running := true, exited := false,
    heap := [], queue := [], written := [], deployWritten := [], serveWritten := [] }

/-- Run a whole interleaving of producer/writer/stop operations. -/
def runOps (did : Str) (persist : Bool) (ops : List SinkOp) : SinkState :=
  ops.foldl sinkStep (initSink did persist)

/-- Drive the writer loop for `fuel` iterations or until it exits. -/
def drainFuel : Nat → SinkState → SinkState
  | 0, s => s
  | fuel + 1, s => if s.exited then s else drainFuel fuel (writerStep s)

/-- Drive the writer loop until it exits; once the stop flag is down the
queue shrinks every iteration, so `queue.length + 1` steps suffice. -/
def drain (s : SinkState) : SinkState := drainFuel (s.queue.length + 1) s

/-- The dicts a drain of the pending queue will emit, computed from the
queue and heap: the `none` sentinels are skipped and every referenced dict
is stamped. -/
def pendingStamped (did : Str) (heap : List Dict) (queue : List (Option Nat)) :
    List Dict :=
  (queue.filterMap id).map (fun r => stampEntry did (heap.getD r []))

theorem stampEntry_idem (did : Str) (d : Dict) :
    stampEntry did (stampEntry did d) = stampEntry did d :=
  setKey_setKey_same d depKey (.s did)

theorem writerStep_of_exited (s : SinkState) (h : s.exited = true) :
    writerStep s = s := by
  rw [writerStep, if_pos h]

theorem writerStep_exit_transition (s : SinkState) (h1 : s.exited = false)
    (h2 : s.running = false) (h3 : s.queue = []) :
    writerStep s = { s with exited := true } := by
  rw [writerStep, if_neg (by simp [h1]), if_pos (by simp [h2, h3])]

theorem writerStep_idle (s : SinkState) (h1 : s.exited = false)
    (h2 : s.running = true) (h3 : s.queue = []) :
    writerStep s = s := by
  rw [writerStep, if_neg (by simp [h1]), if_neg (by simp [h2])]
  rw [h3]

theorem writerStep_sentinel (s : SinkState) (rest : List (Option Nat))
    (h1 : s.exited = false) (h2 : s.queue = none :: rest) :
    writerStep s = { s with queue := rest } := by
  rw [writerStep, if_neg (by simp [h1]), if_neg (by simp [h2])]
  rw [h2]

theorem writerStep_entry (s : SinkState) (r : Nat) (rest : List (Option Nat))
    (h1 : s.exited = false) (h2 : s.queue = some r :: rest) :
    writerStep s =
      { s with
          queue := rest,
          heap := s.heap.set r (stampEntry s.deployment_id (s.heap.getD r [])),
          written := s.written ++ [stampEntry s.deployment_id (s.heap.getD r [])],
          deployWritten := s.deployWritten ++
            (if s.persist ∧
                hasTypeVal (stampEntry s.deployment_id (s.heap.getD r [])) "status".data
              then [stampEntry s.deployment_id (s.heap.getD r [])] else []),
          serveWritten := s.serveWritten ++
            (if s.persist ∧
                hasTypeVal (stampEntry s.deployment_id (s.heap.getD r [])) "log".data
              then [stampEntry s.deployment_id (s.heap.getD r [])] else []) } := by
  rw [writerStep, if_neg (by simp [h1]), if_neg (by simp [h2])]
  rw [h2]

theorem pendingStamped_nil (did : Str) (heap : List Dict) :
    pendingStamped did heap [] = [] := rfl

theorem pendingStamped_append (did : Str) (heap : List Dict)
    (q1 q2 : List (Option Nat)) :
    pendingStamped did heap (q1 ++ q2) =
      pendingStamped did heap q1 ++ pendingStamped did heap q2 := by
  simp [pendingStamped, List.filterMap_append]

theorem pendingStamped_sentinel (did : Str) (heap : List Dict)
    (rest : List (Option Nat)) :
    pendingStamped did heap (none :: rest) = pendingStamped did heap rest := by
  simp [pendingStamped]

theorem pendingStamped_cons (did : Str) (heap : List Dict) (r : Nat)
    (rest : List (Option Nat)) :
    pendingStamped did heap (some r :: rest) =
      stampEntry did (heap.getD r []) :: pendingStamped did heap rest := by
  simp [pendingStamped]

theorem getD_set_stamp (did : Str) (heap : List Dict) (r r1 : Nat) :
    stampEntry did ((heap.set r (stampEntry did (heap.getD r []))).getD r1 []) =
      stampEntry did (heap.getD r1 []) := by
  by_cases h : r = r1
  · subst h
    by_cases hlt : r < heap.length
    · rw [List.getD_eq_getElem?_getD, List.getElem?_set_eq_of_lt _ hlt]
      simp [stampEntry_idem]
    · rw [List.set_eq_of_length_le (Nat.le_of_not_lt hlt)]
  · rw [List.getD_eq_getElem?_getD, List.getElem?_set_ne h,
      ← List.getD_eq_getElem?_getD]

theorem pendingStamped_set_stamp (did : Str) (heap : List Dict) (r : Nat)
    (q : List (Option Nat)) :
    pendingStamped did (heap.set r (stampEntry did (heap.getD r []))) q =
      pendingStamped did heap q := by
  simp only [pendingStamped]
  apply List.map_congr_left
  intro r1 hr1
  exact getD_set_stamp did heap r r1

theorem pendingStamped_set_not_mem (did : Str) (heap : List Dict) (r : Nat)
    (x : Dict) (q : List (Option Nat)) (h : r ∉ q.filterMap id) :
    pendingStamped did (heap.set r x) q = pendingStamped did heap q := by
  simp only [pendingStamped]
  apply List.map_congr_left
  intro r1 hr1
  have hne : r ≠ r1 := fun hc => h (hc ▸ hr1)
  rw [List.getD_eq_getElem?_getD, List.getElem?_set_ne hne,
    ← List.getD_eq_getElem?_getD]

theorem pendingStamped_heap_append (did : Str) (heap : List Dict) (d : Dict)
    (q : List (Option Nat)) (h : ∀ r ∈ q.filterMap id, r < heap.length) :
    pendingStamped did (heap ++ [d]) q = pendingStamped did heap q := by
  simp only [pendingStamped]
  apply List.map_congr_left
  intro r1 hr1
  rw [List.getD_eq_getElem?_getD, List.getElem?_append, if_pos (h r1 hr1),
    ← List.getD_eq_getElem?_getD]

theorem drainFuel_of_exited (fuel : Nat) (s : SinkState) (h : s.exited = true) :
    drainFuel fuel s = s := by
  cases fuel with
  | zero => rfl
  | succ fuel => rw [drainFuel, if_pos h]

/-- Full drain of a stopped sink: once `_running` is down, repeatedly
running the writer loop writes every pending real entry of the queue, in
queue order and stamped with the session id, then exits with an empty
queue. The `none` sentinels are the only items dequeued without being
written. -/
theorem drainFuel_spec :
    ∀ (fuel : Nat) (s : SinkState), s.running = false → s.exited = false →
      s.queue.length < fuel →
      (drainFuel fuel s).written =
          s.written ++ pendingStamped s.deployment_id s.heap s.queue ∧
        (drainFuel fuel s).queue = [] ∧
        (drainFuel fuel s).exited = true ∧
        (drainFuel fuel s).deployment_id = s.deployment_id := by
  intro fuel
  induction fuel with
  | zero => intro s _ _ h; omega
  | succ fuel ih =>
    intro s hr he hq
    rw [drainFuel, if_neg (by simp [he])]
    cases hqe : s.queue with
    | nil =>
      rw [writerStep_exit_transition s he hr hqe]
      rw [drainFuel_of_exited fuel _ rfl]
      simp [hqe, pendingStamped_nil]
    | cons o rest =>
      have hql0 : rest.length + 1 < fuel + 1 := by
        rw [hqe] at hq
        simpa using hq
      cases o with
      | none =>
        rw [writerStep_sentinel s rest he hqe]
        obtain ⟨h1, h2, h3, h4⟩ := ih { s with queue := rest }
          hr he (show rest.length < fuel by omega)
        refine ⟨?_, h2, h3, h4⟩
        rw [h1]
        show s.written ++ pendingStamped s.deployment_id s.heap rest =
          s.written ++ pendingStamped s.deployment_id s.heap (none :: rest)
        rw [pendingStamped_sentinel]
      | some r =>
        rw [writerStep_entry s r rest he hqe]
        obtain ⟨h1, h2, h3, h4⟩ := ih
          { s with
              queue := rest,
              heap := s.heap.set r (stampEntry s.deployment_id (s.heap.getD r [])),
              written := s.written ++ [stampEntry s.deployment_id (s.heap.getD r [])],
              deployWritten := s.deployWritten ++
                (if s.persist ∧
                    hasTypeVal (stampEntry s.deployment_id (s.heap.getD r []))
                      "status".data
                  then [stampEntry s.deployment_id (s.heap.getD r [])] else []),
              serveWritten := s.serveWritten ++
                (if s.persist ∧
                    hasTypeVal (stampEntry s.deployment_id (s.heap.getD r []))
                      "log".data
                  then [stampEntry s.deployment_id (s.heap.getD r [])] else []) }
          hr he (show rest.length < fuel by omega)
        refine ⟨?_, h2, h3, h4⟩
        rw [h1]
        show (s.written ++ [stampEntry s.deployment_id (s.heap.getD r [])]) ++
            pendingStamped s.deployment_id
              (s.heap.set r (stampEntry s.deployment_id (s.heap.getD r []))) rest =
          s.written ++ pendingStamped s.deployment_id s.heap (some r :: rest)
        rw [pendingStamped_set_stamp, pendingStamped_cons]
        simp

/-- Drain of a stopped sink, packaged at the `drain` entry point. -/
theorem drain_spec (s : SinkState) (hr : s.running = false)
    (he : s.exited = false) :
    (drain s).written =
        s.written ++ pendingStamped s.deployment_id s.heap s.queue ∧
      (drain s).queue = [] ∧ (drain s).exited = true ∧
      (drain s).deployment_id = s.deployment_id :=
  drainFuel_spec (s.queue.length + 1) s hr he (by omega)

instance : Nonempty Dict := ⟨[]⟩

/-- The entries submitted by `put` calls in a trace, tagged with the
producer that submitted them, in global queue-insertion order. -/
def putsOf (ops : List SinkOp) : List (Nat × Dict) :=
  ops.filterMap (fun op =>
    match op with
    | .put p d => some (p, d)
    | _ => none)

/-- The submitted dicts in global queue-insertion order. -/
def subsOf (ops : List SinkOp) : List Dict := (putsOf ops).map Prod.snd

/-- One producer's own submissions, in its submission order. -/
def subsOfProducer (p : Nat) (ops : List SinkOp) : List Dict :=
  ((putsOf ops).filter (fun q => q.1 = p)).map Prod.snd

/-- Invariant of the sink state machine, relating a reachable state to the
trace that produced it. -/
structure SinkInv (did : Str) (persist : Bool) (ops : List SinkOp)
    (s : SinkState) : Prop where
  did_eq : s.deployment_id = did
  persist_eq : s.persist = persist
  refs_lt : ∀ r ∈ s.queue.filterMap id, r < s.heap.length
  refs_nodup : (s.queue.filterMap id).Nodup
  fifo : s.written ++ pendingStamped did s.heap s.queue
           = (subsOf ops).map (stampEntry did)
  deploy_eq : s.deployWritten =
    if persist then s.written.filter (fun d => hasTypeVal d "status".data) else []
  serve_eq : s.serveWritten =
    if persist then s.written.filter (fun d => hasTypeVal d "log".data) else []

theorem sinkInv_init (did : Str) (persist : Bool) :
    SinkInv did persist [] (initSink did persist) := by
  refine ⟨rfl, rfl, ?_, ?_, rfl, ?_, ?_⟩
  · intro r hr
    simp [initSink] at hr
  · simp [initSink]
  · cases persist <;> rfl
  · cases persist <;> rfl

theorem subsOf_append_put (ops : List SinkOp) (p : Nat) (d : Dict) :
    subsOf (ops ++ [.put p d]) = subsOf ops ++ [d] := by
  simp [subsOf, putsOf, List.filterMap_append]

theorem subsOf_append_writer (ops : List SinkOp) :
    subsOf (ops ++ [.writer]) = subsOf ops := by
  simp [subsOf, putsOf, List.filterMap_append]

theorem subsOf_append_stop (ops : List SinkOp) :
    subsOf (ops ++ [.stop]) = subsOf ops := by
  simp [subsOf, putsOf, List.filterMap_append]

theorem filter_append_singleton (f : Dict → Bool) (l : List Dict) (d : Dict) :
    (l ++ [d]).filter f = l.filter f ++ (if f d then [d] else []) := by
  rw [List.filter_append, List.filter_singleton]
  cases f d <;> simp

theorem sinkInv_step {did : Str} {persist : Bool} {ops : List SinkOp}
    {s : SinkState} (inv : SinkInv did persist ops s) (op : SinkOp) :
    SinkInv did persist (ops ++ [op]) (sinkStep s op) := by
  obtain ⟨did_eq, persist_eq, refs_lt, refs_nodup, fifo, deploy_eq, serve_eq⟩ := inv
  cases op with
  | put p d =>
    rw [sinkStep]
    constructor
    · exact did_eq
    · exact persist_eq
    · intro r hr
      simp only [List.filterMap_append] at hr
      rcases List.mem_append.mp hr with h | h
      · have := refs_lt r h
        simp only [List.length_append, List.length_cons, List.length_nil]
        omega
      · simp at h
        simp [h]
    · rw [List.filterMap_append]
      rw [List.nodup_append]
      refine ⟨refs_nodup, by simp, ?_⟩
      intro r hr hmem
      simp at hmem
      have := refs_lt r hr
      omega
    · rw [subsOf_append_put, List.map_append]
      show s.written ++
        pendingStamped did (s.heap ++ [d]) (s.queue ++ [some s.heap.length]) = _
      rw [pendingStamped_append, pendingStamped_heap_append did s.heap d s.queue refs_lt]
      rw [show pendingStamped did (s.heap ++ [d]) [some s.heap.length]
            = [stampEntry did d] from ?_]
      · rw [← List.append_assoc, fifo]
        simp
      · simp [pendingStamped, List.getD_eq_getElem?_getD]
    · exact deploy_eq
    · exact serve_eq
  | stop =>
    rw [sinkStep]
    constructor
    · exact did_eq
    · exact persist_eq
    · intro r hr
      simp only [List.filterMap_append] at hr
      rcases List.mem_append.mp hr with h | h
      · exact refs_lt r h
      · simp at h
    · rw [List.filterMap_append]
      simpa using refs_nodup
    · rw [subsOf_append_stop]
      show s.written ++ pendingStamped did s.heap (s.queue ++ [none]) = _
      rw [pendingStamped_append]
      rw [show pendingStamped did s.heap [none] = [] from rfl]
      simpa using fifo
    · exact deploy_eq
    · exact serve_eq
  | writer =>
    rw [sinkStep]
    replace fifo : s.written ++ pendingStamped did s.heap s.queue
        = (subsOf (ops ++ [SinkOp.writer])).map (stampEntry did) := by
      rw [subsOf_append_writer]
      exact fifo
    by_cases hex : s.exited = true
    · rw [writerStep_of_exited s hex]
      exact ⟨did_eq, persist_eq, refs_lt, refs_nodup, fifo, deploy_eq, serve_eq⟩
    · have he : s.exited = false := by simpa using hex
      cases hqe : s.queue with
      | nil =>
        by_cases hrun : s.running = true
        · rw [writerStep_idle s he hrun hqe]
          exact ⟨did_eq, persist_eq, refs_lt, refs_nodup, fifo, deploy_eq, serve_eq⟩
        · have hr : s.running = false := by simpa using hrun
          rw [writerStep_exit_transition s he hr hqe]
          exact ⟨did_eq, persist_eq, by simp [hqe],
            by simp [hqe],
            by simpa [hqe] using fifo,
            deploy_eq, serve_eq⟩
      | cons o rest =>
        cases o with
        | none =>
          rw [writerStep_sentinel s rest he hqe]
          rw [hqe] at refs_lt refs_nodup fifo
          exact ⟨did_eq, persist_eq,
            fun r hr => refs_lt r (by simpa using hr),
            by simpa using refs_nodup,
            by rw [pendingStamped_sentinel] at fifo; exact fifo,
            deploy_eq, serve_eq⟩
        | some r =>
          rw [writerStep_entry s r rest he hqe]
          rw [hqe] at refs_lt refs_nodup fifo
          have hfm : (some r :: rest).filterMap id = r :: rest.filterMap id := by
            simp
          rw [hfm] at refs_lt refs_nodup
          have hrnotmem : r ∉ rest.filterMap id := by
            have := refs_nodup
            rw [List.nodup_cons] at this
            exact this.1
          constructor
          · exact did_eq
          · exact persist_eq
          · intro r1 hr1
            have := refs_lt r1 (List.mem_cons_of_mem _ hr1)
            simpa using this
          · rw [List.nodup_cons] at refs_nodup
            exact refs_nodup.2
          · show (s.written ++ [stampEntry s.deployment_id (s.heap.getD r [])]) ++
              pendingStamped did
                (s.heap.set r (stampEntry s.deployment_id (s.heap.getD r []))) rest = _
            rw [did_eq]
            rw [pendingStamped_set_not_mem did s.heap r _ rest hrnotmem]
            rw [pendingStamped_cons] at fifo
            rw [← fifo]
            simp
          · show s.deployWritten ++ _ = _
            rw [deploy_eq, did_eq]
            cases hp : persist with
            | false =>
              rw [persist_eq, hp]
              simp
            | true =>
              rw [persist_eq, hp]
              rw [filter_append_singleton]
              simp
          · show s.serveWritten ++ _ = _
            rw [serve_eq, did_eq]
            cases hp : persist with
            | false =>
              rw [persist_eq, hp]
              simp
            | true =>
              rw [persist_eq, hp]
              rw [filter_append_singleton]
              simp

/-- Every reachable sink state satisfies the invariant. -/
theorem sinkInv_runOps (did : Str) (persist : Bool) (ops : List SinkOp) :
    SinkInv did persist ops (runOps did persist ops) := by
  induction ops using List.reverseRecOn with
  | nil => exact sinkInv_init did persist
  | append_singleton l a ih =>
    rw [runOps, List.foldl_append]
    exact sinkInv_step ih a

/-- An event submitted to the aggregator by the orchestrator: a status entry
with its extra keyword fields, or a log entry. The `timestamp` and `level`
fields added by the `status`/`log` convenience methods are omitted here:
none of the orchestrator-level claims inspect them. -/
inductive Ev where
  | status (s : Str) (fields : List (Str × JVal))
  | log (source : Str) (message : Str)
  deriving DecidableEq

/-- Whether an event is a `status` event with the given status value. -/
def isStatusNamed (name : Str) : Ev → Bool
  | .status s _ => s = name
  | .log _ _ => false

/-- Outcome of dynamically loading the user module (deploy.py lines
387-402): the spec loader came back `None`, one of the three classified
exception kinds was raised, or a module was obtained. -/
inductive LoadRes where
  | specNone
  | syntaxErr (e : Str)
  | importErr (e : Str)
  | otherErr (e : Str)
  | loaded (m : ModuleModel)
  deriving DecidableEq

/-- The environment and collaborator outcomes a `deploy_localapi` run
observes. Exception-raising collaborators carry their message `str(e)`.
`acquirePort` models `acquire_port` (deploy.py line 417), which is called
outside any try block: its failure propagates out of the body (no `error`
status) but still runs the `finally` cleanup. -/
structure DeployEnv where
  localapi_path : Str
  pathStem : Str
  pathName : Str
  providedId : Option Str
  nowTs : Str
  localModeVar : Str
  synthApiKey : Option Str
  authRes : Except Str Str
  pathExists : Bool
  load : LoadRes
  acquirePort : Except Str Nat
  serverStart : Option Str
  healthRes : Option Str
  tunnelRes : Except Str Str

/-- Python truthiness of `os.environ.get(name)`: false for an absent
variable and for the empty string (deploy.py line 346 checks `if not ...`). -/
def pyTruthyStr : Option Str → Bool
  | none => false
  | some s => !s.isEmpty

/-- Python `str.lower()` restricted to ASCII as used by the local-mode
check. -/
def lowerStr (s : Str) : Str := s.map Char.toLower

/-- The local-mode toggle (deploy.py line 341):
`os.environ.get("SYNTH_LOCAL_MODE", "").lower() in ("1", "true", "yes")`. -/
def localModeOf (v : Str) : Bool :=
  lowerStr v = "1".data || lowerStr v = "true".data || lowerStr v = "yes".data

/-- The session id (deploy.py lines 325-327): the caller-supplied id when
one was given (`is None` is the only check, so the empty string is kept),
otherwise `{path.stem}_{timestamp}`. -/
def sessionId (providedId : Option Str) (stem ts : Str) : Str :=
  match providedId with
  | none => stem ++ "_".data ++ ts
  | some i => i

/-- An `error` status event with its `error` keyword field. -/
def evError (msg : Str) : Ev := .status "error".data [("error".data, .s msg)]

/-- The `ready` status (deploy.py line 459) followed by the `stopped`
status emitted when the keep-alive loop is cancelled (lines 462-466); in
the model the keep-alive always eventually receives the external
cancellation, the sole cancellable point of the orchestrator. -/
def readyThenStopped (url : Str) (port : Nat) : List Ev :=
  [Ev.status "ready".data [("url".data, .s url), ("port".data, .n (Int.ofNat port))],
    Ev.status "stopped".data [("message".data, .s "Deployment stopped".data)]]

/-- The events emitted by the body of `deploy_localapi` (deploy.py lines
339-466), in order, for the given environment and collaborator outcomes.
Concurrent producers (stream captures, uvicorn bridge, the cloudflare log
reader) are not part of this sequential event list; they feed the sink
independently and are covered by the sink model. -/
def deployBody (env : DeployEnv) : List Ev :=
  let local_mode := localModeOf env.localModeVar
  [Ev.status "starting".data [("message".data, .s "Initializing deployment...".data)]] ++
  if ¬ pyTruthyStr env.synthApiKey then
    [evError ("SYNTH_API_KEY not set - run ".data ++ [apos] ++ "synth auth".data ++
      [apos] ++ " or export SYNTH_API_KEY".data)]
  else
    [Ev.log "app".data "Getting environment API key...".data] ++
    match env.authRes with
    | .error e => [evError ("Failed to get environment API key: ".data ++ e)]
    | .ok _ =>
      if ¬ env.pathExists then
        [evError ("File not found: ".data ++ env.localapi_path)]
      else
        [Ev.log "app".data ("Loading module: ".data ++ env.pathName)] ++
        match env.load with
        | .specNone => [evError ("Could not load module from: ".data ++ env.localapi_path)]
        | .syntaxErr e => [evError ("Syntax error in ".data ++ env.pathName ++ ": ".data ++ e)]
        | .importErr e => [evError ("Import error in ".data ++ env.pathName ++ ": ".data ++ e)]
        | .otherErr e => [evError ("Failed to load ".data ++ env.pathName ++ ": ".data ++ e)]
        | .loaded m =>
          [Ev.log "app".data "Validating LocalAPI module...".data] ++
          match validate_localapi m with
          | some ve => [evError ve]
          | none =>
            match env.acquirePort with
            | .error _ => []
            | .ok port =>
              [Ev.log "app".data ("Starting server on port ".data ++ natStr port ++ "...".data)] ++
              match env.serverStart with
              | some e => [evError ("Failed to start server: ".data ++ e)]
              | none =>
                [Ev.log "app".data "Waiting for health check...".data] ++
                match env.healthRes with
                | some e => [evError ("Health check failed: ".data ++ e)]
                | none =>
                  [Ev.log "app".data "Health check passed".data] ++
                  if local_mode then
                    [Ev.log "app".data ("Local mode enabled, using ".data ++
                      ("http://localhost:".data ++ natStr port))] ++
                    readyThenStopped ("http://localhost:".data ++ natStr port) port
                  else
                    [Ev.log "cloudflare".data "Creating Cloudflare tunnel...".data] ++
                    match env.tunnelRes with
                    | .error e => [evError ("Failed to create tunnel: ".data ++ e)]
                    | .ok url =>
                      [Ev.log "cloudflare".data ("Tunnel created: ".data ++ url)] ++
                      readyThenStopped url port

/-- The function `deploy_localapi` (deploy.py lines 322-472): the emitted
event sequence together with whether the `finally` cleanup ran, i.e. the
original streams were restored and `aggregator.stop()` was called. The
`finally` block executes on every exit of the body - normal return, early
`return` after an `error` status, an uncaught collaborator exception, and
cancellation - so the flag is true on every path. -/
def deploy_localapi (env : DeployEnv) : List Ev × Bool :=
  (deployBody env, true)

/-- C6: `StreamCapture.write` splits the buffered input on the line
terminator, forwards every complete non-blank line as a log message
trimmed of trailing whitespace, retains the final incomplete fragment in
the buffer, and always writes the full original data unmodified to the
wrapped stream. The split/filter/rstrip formula is the spec-side reading;
`streamCaptureWrite` is the source-side loop. -/
theorem C6_streamCapture_write_splits (buf data : Str) :
    (streamCaptureWrite buf data).2.2 = data ∧
      (data ≠ [] →
        streamCaptureWrite buf data =
          (((splitNl (buf ++ data)).dropLast.filter (fun l => !isBlank l)).map rstrip,
            ((splitNl (buf ++ data)).getLastD [], data))) := by
  constructor
  · rw [streamCaptureWrite]
    split
    · rename_i h
      rw [h]
    · rfl
  · intro hne
    rw [streamCaptureWrite, if_neg hne]
    simp only [procBuf_characterization]

/-- Witness for C6 at the concrete input named by the claim: writing
"a\nb\nc" to an empty-buffer capture forwards exactly `a` and `b`, leaves
`c` buffered, and passes the data through unchanged. -/
theorem C6_witness :
    streamCaptureWrite [] "a\nb\nc".data =
      (["a".data, "b".data], ("c".data, "a\nb\nc".data)) := by
  have h := (C6_streamCapture_write_splits [] ("a\nb\nc".data)).2 (by decide)
  rw [h]
  decide

/-- C8: when the application checks pass and the module has a callable
dataset-size accessor, `_validate_localapi` classifies the probe with
distinct messages - not-implemented, generic failure, wrong type,
non-positive value - and the resulting message ends validation no matter
what the sample and scorer attributes look like. -/
theorem C8_dataset_size_classification (m : ModuleModel) (a : PyAttr DSResult)
    (happ : checkApp m = none) (hds : m.get_dataset_size = some a)
    (hcall : a.callable = true) :
    (∀ e, a.call = .notImpl e → validate_localapi m = some (dsNotImplMsg e)) ∧
    (∀ e, a.call = .err e → validate_localapi m = some (dsFailedMsg e)) ∧
    (∀ ty, a.call = .ok (.other ty) → validate_localapi m = some (dsTypeMsg ty)) ∧
    (∀ n, a.call = .ok (.int n) → n ≤ 0 → validate_localapi m = some (dsRangeMsg n)) ∧
    (∀ e1 e2, dsNotImplMsg e1 ≠ dsFailedMsg e2) := by
  refine ⟨?_, ?_, ?_, ?_, fun e1 e2 => dsNotImplMsg_ne_dsFailedMsg e1 e2⟩
  · intro e hc
    simp [validate_localapi, happ, checkDatasetSize, hds, hcall, hc]
  · intro e hc
    simp [validate_localapi, happ, checkDatasetSize, hds, hcall, hc]
  · intro ty hc
    simp [validate_localapi, happ, checkDatasetSize, hds, hcall, hc]
  · intro n hc hn
    simp [validate_localapi, happ, checkDatasetSize, hds, hcall, hc, hn]

/-- Witness for C8: a module whose dataset-size accessor raises a
NotImplementedError gets exactly the dedicated not-implemented message. -/
def C8_app : AppModel :=
  { isFastAPI := true, typeName := "FastAPI".data,
    routes := ["/health".data, "/rollout".data] }

def C8_module : ModuleModel :=
  { app := some C8_app,
    get_dataset_size := some { callable := true, call := .notImpl "todo".data },
    get_sample := none, score_response := none }

theorem C8_witness :
    validate_localapi C8_module = some (dsNotImplMsg "todo".data) :=
  (C8_dataset_size_classification C8_module _ (by decide) rfl rfl).1 "todo".data rfl

/-- C9: for a module that passes the application, dataset-size and sample
checks and whose scorer is callable, only three conditions fail the
scorer check - a NotImplementedError, a non-numeric return value, or
fewer than two declared parameters. In particular any other exception
raised on the dummy probe is tolerated and validation succeeds. -/
theorem C9_scorer_tolerates_other_exceptions (m : ModuleModel) (sc : ScorerAttr)
    (happ : checkApp m = none) (hds : checkDatasetSize m = none)
    (hsm : checkSample m = none) (hsc : m.score_response = some sc)
    (hcall : sc.callable = true) :
    (2 ≤ sc.params.length → ∀ e, sc.call = .err e → validate_localapi m = none) ∧
    (2 ≤ sc.params.length → ∀ e, sc.call = .notImpl e →
      validate_localapi m = some (scoreNotImplMsg e)) ∧
    (2 ≤ sc.params.length → ∀ ty, sc.call = .ok (.other ty) →
      validate_localapi m = some (scoreTypeMsg ty)) ∧
    (sc.params.length < 2 → validate_localapi m = some (scoreSigMsg sc.params)) ∧
    (2 ≤ sc.params.length → sc.call = .ok .num → validate_localapi m = none) := by
  refine ⟨?_, ?_, ?_, ?_, ?_⟩
  · intro hp e hc
    simp [validate_localapi, happ, hds, hsm, checkScore, hsc, hcall, hc, Nat.not_lt.mpr hp]
  · intro hp e hc
    simp [validate_localapi, happ, hds, hsm, checkScore, hsc, hcall, hc, Nat.not_lt.mpr hp]
  · intro hp ty hc
    simp [validate_localapi, happ, hds, hsm, checkScore, hsc, hcall, hc, Nat.not_lt.mpr hp]
  · intro hp
    simp [validate_localapi, happ, hds, hsm, checkScore, hsc, hcall, hp]
  · intro hp hc
    simp [validate_localapi, happ, hds, hsm, checkScore, hsc, hcall, hc, Nat.not_lt.mpr hp]

/-- Witness for C9: a scorer with two parameters that raises a plain
exception on the dummy probe does not fail validation. -/
def C9_app : AppModel :=
  { isFastAPI := true, typeName := "FastAPI".data,
    routes := ["/health".data, "/rollout".data] }

def C9_scorer : ScorerAttr :=
  { callable := true, params := ["response".data, "sample".data],
    call := .err "KeyError".data }

def C9_module : ModuleModel :=
  { app := some C9_app, get_dataset_size := none, get_sample := none,
    score_response := some C9_scorer }

theorem C9_witness : validate_localapi C9_module = none :=
  (C9_scorer_tolerates_other_exceptions C9_module C9_scorer (by decide) (by decide)
    (by decide) rfl rfl).1 (by decide) "KeyError".data rfl

/-- C3: the writer loop exits exactly when the stop flag is down AND the
queue is empty; from a stopped (not yet exited) state, draining runs the
loop to completion, writing every pending real entry - stamped, in queue
order, as `pendingStamped` (= the stamped `filterMap id` of the queue)
makes explicit - and dropping only the `none` sentinels. -/
theorem C3_writer_loop_drains (s : SinkState) (he : s.exited = false) :
    ((writerStep s).exited = true ↔ s.running = false ∧ s.queue = []) ∧
    (s.running = false →
      (drain s).written = s.written ++ pendingStamped s.deployment_id s.heap s.queue ∧
        (drain s).queue = [] ∧ (drain s).exited = true) := by
  constructor
  · constructor
    · intro hex
      by_cases hr : s.running = true
      · exfalso
        cases hq : s.queue with
        | nil =>
          rw [writerStep_idle s he hr hq] at hex
          simp [he] at hex
        | cons o rest =>
          cases o with
          | none =>
            rw [writerStep_sentinel s rest he hq] at hex
            have hex2 : s.exited = true := hex
            simp [he] at hex2
          | some r =>
            rw [writerStep_entry s r rest he hq] at hex
            have hex2 : s.exited = true := hex
            simp [he] at hex2
      · have hr2 : s.running = false := by
          cases hrr : s.running
          · rfl
          · exact absurd hrr hr
        cases hq : s.queue with
        | nil => exact ⟨hr2, rfl⟩
        | cons o rest =>
          exfalso
          cases o with
          | none =>
            rw [writerStep_sentinel s rest he hq] at hex
            have hex2 : s.exited = true := hex
            simp [he] at hex2
          | some r =>
            rw [writerStep_entry s r rest he hq] at hex
            have hex2 : s.exited = true := hex
            simp [he] at hex2
    · rintro ⟨hr, hq⟩
      rw [writerStep_exit_transition s he hr hq]
  · intro hr
    obtain ⟨h1, h2, h3, _⟩ := drain_spec s hr he
    exact ⟨h1, h2, h3⟩

/-- Witness for C3 on a concrete stopped sink holding one real entry and
one sentinel. -/
theorem C3_witness :
    (let s : SinkState :=
      { deployment_id := "dep1".data, persist := false, running := false,
        exited := false, heap := [[(typeKey, JVal.s "log".data)]],
        queue := [some 0, none], written := [], deployWritten := [],
        serveWritten := [] }
     ((writerStep s).exited = true ↔ s.running = false ∧ s.queue = []) ∧
       (drain s).written = s.written ++ pendingStamped s.deployment_id s.heap s.queue ∧
       (drain s).queue = [] ∧ (drain s).exited = true) := by
  refine ⟨(C3_writer_loop_drains _ rfl).1, (C3_writer_loop_drains _ rfl).2 rfl⟩

/-- C4 counterexample: the source only generates a session id when the
caller passes None (deploy.py line 326), so a caller-supplied empty
string is kept; every line of that session then carries the empty
`deployment_id`, contradicting the non-emptiness part of the claim. -/
theorem C4_counterexample :
    sessionId (some []) "x".data "t".data = [] ∧
    (let st := runOps [] true
        [SinkOp.put 0 [(typeKey, JVal.s "log".data)], SinkOp.stop,
          SinkOp.writer, SinkOp.writer]
     st.written.length = 1 ∧
       lookupKey (st.written.getD 0 []) depKey = some (JVal.s [])) := by
  decide

/-- C4 (amended): for every entry dequeued by the writer, dequeue-time
stamping sets `deployment_id` to the session id, so every written line of
one session carries the same `deployment_id` value, equal to the
session's id; that value is non-empty whenever the session id is
(in particular auto-generated ids are never empty). The producers never
set the field in the model, so the dequeue-time assignment is the only
one. -/
theorem C4_amended_stamped_once_at_dequeue (did : Str) (persist : Bool)
    (ops : List SinkOp) (stem ts : Str) :
    (∀ d ∈ (runOps did persist ops).written,
      lookupKey d depKey = some (.s did)) ∧
    sessionId none stem ts ≠ [] := by
  constructor
  · intro d hd
    have fifo := (sinkInv_runOps did persist ops).fifo
    have hpref : (runOps did persist ops).written <+:
        (subsOf ops).map (stampEntry did) := ⟨_, fifo⟩
    have hmem := hpref.subset hd
    obtain ⟨x, hx, rfl⟩ := List.mem_map.mp hmem
    exact lookupKey_setKey_self x depKey (.s did)
  · simp [sessionId]

/-- Witness for C4 (amended) on a one-entry session: the single written
line of the session carries the session id, and a generated id is
non-empty. -/
theorem C4_witness :
    lookupKey (stampEntry "dep1".data [(typeKey, JVal.s "log".data)]) depKey =
      some (JVal.s "dep1".data) ∧
    sessionId none "x".data "t".data ≠ [] := by
  have h := C4_amended_stamped_once_at_dequeue "dep1".data false
    [SinkOp.put 0 [(typeKey, JVal.s "log".data)], SinkOp.writer] "x".data "t".data
  exact ⟨h.1 (stampEntry "dep1".data [(typeKey, JVal.s "log".data)]) (by decide), h.2⟩

/-- C5: global FIFO - the lines written by the single writer are always a
prefix of the stamped entries in queue-insertion order; each producer's
own submissions embed order-preservingly into that global order; and a
fully drained stopped run has written exactly the stamped global
insertion order, so each producer's lines appear in its own submission
order. -/
theorem C5_fifo_per_producer (did : Str) (persist : Bool) (ops : List SinkOp) :
    (runOps did persist ops).written <+: (subsOf ops).map (stampEntry did) ∧
    (∀ p, ((subsOfProducer p ops).map (stampEntry did)).Sublist
        ((subsOf ops).map (stampEntry did))) ∧
    ((runOps did persist ops).running = false →
      (runOps did persist ops).exited = false →
      (drain (runOps did persist ops)).written = (subsOf ops).map (stampEntry did)) := by
  refine ⟨⟨_, (sinkInv_runOps did persist ops).fifo⟩, ?_, ?_⟩
  · intro p
    exact List.Sublist.map (stampEntry did)
      (List.Sublist.map Prod.snd (List.filter_sublist (putsOf ops)))
  · intro hr he
    obtain ⟨h1, _, _, _⟩ := drain_spec _ hr he
    rw [h1, (sinkInv_runOps did persist ops).did_eq,
      (sinkInv_runOps did persist ops).fifo]

/-- Witness for C5: two producers, interleaved puts, stop, then drain. -/
theorem C5_witness :
    (let ops := [SinkOp.put 0 [(typeKey, JVal.s "log".data)],
        SinkOp.put 1 [(typeKey, JVal.s "status".data)],
        SinkOp.writer, SinkOp.put 0 [], SinkOp.stop]
     (runOps "d".data false ops).written <+:
        (subsOf ops).map (stampEntry "d".data) ∧
      (drain (runOps "d".data false ops)).written =
        (subsOf ops).map (stampEntry "d".data)) := by
  refine ⟨(C5_fifo_per_producer "d".data false _).1,
    (C5_fifo_per_producer "d".data false _).2.2 (by decide) (by decide)⟩

/-- C7: with persistence enabled, the deploy file receives exactly the
status-typed written entries and the serve file exactly the log-typed
ones (as filters of the primary-stream output); every persisted dict is
one the writer wrote to the primary stream, so its serialized line equals
the primary-stream line, and that line is single-line JSON - it is the
`json.dumps` image of the entry object and contains no newline. -/
theorem C7_persisted_lines_roundtrip (did : Str) (ops : List SinkOp) :
    (runOps did true ops).deployWritten =
        (runOps did true ops).written.filter (fun d => hasTypeVal d "status".data) ∧
    (runOps did true ops).serveWritten =
        (runOps did true ops).written.filter (fun d => hasTypeVal d "log".data) ∧
    (∀ d ∈ (runOps did true ops).deployWritten,
      lookupKey d typeKey = some (.s "status".data) ∧
        d ∈ (runOps did true ops).written ∧
        serObj d ∈ ((runOps did true ops).written.map serObj) ∧
        '\n' ∉ serObj d) ∧
    (∀ d ∈ (runOps did true ops).serveWritten,
      lookupKey d typeKey = some (.s "log".data) ∧
        d ∈ (runOps did true ops).written ∧
        serObj d ∈ ((runOps did true ops).written.map serObj) ∧
        '\n' ∉ serObj d) := by
  have inv := sinkInv_runOps did true ops
  have hd := inv.deploy_eq
  have hs := inv.serve_eq
  rw [if_pos rfl] at hd hs
  refine ⟨hd, hs, ?_, ?_⟩
  · intro d hmem
    rw [hd] at hmem
    obtain ⟨hw, ht⟩ := List.mem_filter.mp hmem
    exact ⟨of_decide_eq_true ht, hw, List.mem_map_of_mem serObj hw,
      newline_not_mem_serObj d⟩
  · intro d hmem
    rw [hs] at hmem
    obtain ⟨hw, ht⟩ := List.mem_filter.mp hmem
    exact ⟨of_decide_eq_true ht, hw, List.mem_map_of_mem serObj hw,
      newline_not_mem_serObj d⟩

/-- Witness for C7 on a session that writes one status and one log entry:
the deploy file holds exactly the status line, and that line is a
newline-free line of the primary stream with `type` equal to `status`. -/
theorem C7_witness :
    (runOps "d".data true
        [SinkOp.put 0 [(typeKey, JVal.s "status".data)],
          SinkOp.put 0 [(typeKey, JVal.s "log".data)],
          SinkOp.writer, SinkOp.writer]).deployWritten =
      (runOps "d".data true
        [SinkOp.put 0 [(typeKey, JVal.s "status".data)],
          SinkOp.put 0 [(typeKey, JVal.s "log".data)],
          SinkOp.writer, SinkOp.writer]).written.filter
        (fun d => hasTypeVal d "status".data) ∧
    lookupKey (stampEntry "d".data [(typeKey, JVal.s "status".data)]) typeKey =
        some (.s "status".data) ∧
      stampEntry "d".data [(typeKey, JVal.s "status".data)] ∈
        (runOps "d".data true
          [SinkOp.put 0 [(typeKey, JVal.s "status".data)],
            SinkOp.put 0 [(typeKey, JVal.s "log".data)],
            SinkOp.writer, SinkOp.writer]).written ∧
      serObj (stampEntry "d".data [(typeKey, JVal.s "status".data)]) ∈
        ((runOps "d".data true
          [SinkOp.put 0 [(typeKey, JVal.s "status".data)],
            SinkOp.put 0 [(typeKey, JVal.s "log".data)],
            SinkOp.writer, SinkOp.writer]).written.map serObj) ∧
      '\n' ∉ serObj (stampEntry "d".data [(typeKey, JVal.s "status".data)]) := by
  have h := C7_persisted_lines_roundtrip "d".data
    [SinkOp.put 0 [(typeKey, JVal.s "status".data)],
      SinkOp.put 0 [(typeKey, JVal.s "log".data)],
      SinkOp.writer, SinkOp.writer]
  exact ⟨h.1, h.2.2.1 (stampEntry "d".data [(typeKey, JVal.s "status".data)])
    (by decide)⟩

/-- C10: the writer stamps `deployment_id` by mutating in place the very
dict object the producer submitted: in the heap model, `put` enqueues a
reference to the producer-owned cell and the dequeue updates that same
cell, so after the writer step the producer-visible dict has gained the
`deployment_id` key with the session id while every other key is
unchanged. -/
theorem C10_producer_dict_mutated_in_place (s : SinkState) (r : Nat)
    (rest : List (Option Nat)) (he : s.exited = false)
    (hq : s.queue = some r :: rest) (hr : r < s.heap.length) :
    lookupKey ((writerStep s).heap.getD r []) depKey =
        some (.s s.deployment_id) ∧
    (∀ k, k ≠ depKey →
      lookupKey ((writerStep s).heap.getD r []) k =
        lookupKey (s.heap.getD r []) k) := by
  rw [writerStep_entry s r rest he hq]
  have hget : ((s.heap.set r
        (stampEntry s.deployment_id (s.heap.getD r []))).getD r []) =
      stampEntry s.deployment_id (s.heap.getD r []) := by
    rw [List.getD_eq_getElem?_getD, List.getElem?_set_eq_of_lt _ hr]
    rfl
  constructor
  · show lookupKey ((s.heap.set r
        (stampEntry s.deployment_id (s.heap.getD r []))).getD r []) depKey = _
    rw [hget]
    exact lookupKey_setKey_self _ depKey _
  · intro k hk
    show lookupKey ((s.heap.set r
        (stampEntry s.deployment_id (s.heap.getD r []))).getD r []) k = _
    rw [hget]
    exact lookupKey_setKey_ne _ depKey k _ hk

def C10_state : SinkState :=
  { deployment_id := "dep1".data, persist := false, running := true,
    exited := false, heap := [[("message".data, JVal.s "hi".data)]],
    queue := [some 0], written := [], deployWritten := [], serveWritten := [] }

/-- Witness for C10 on a one-entry queue. -/
theorem C10_witness :
    lookupKey ((writerStep C10_state).heap.getD 0 []) depKey =
        some (JVal.s "dep1".data) ∧
      lookupKey ((writerStep C10_state).heap.getD 0 []) "message".data =
        some (JVal.s "hi".data) := by
  refine ⟨(C10_producer_dict_mutated_in_place C10_state 0 [] rfl rfl (by decide)).1, ?_⟩
  have h := (C10_producer_dict_mutated_in_place C10_state 0 [] rfl rfl
    (by decide)).2 "message".data (by decide)
  rw [h]
  decide

theorem isStatusNamed_log_any (n s m : Str) :
    isStatusNamed n (.log s m) = false := rfl

theorem stopped_not_starting (f : List (Str × JVal)) :
    isStatusNamed "stopped".data (.status "starting".data f) = false := rfl

theorem stopped_not_error (m : Str) :
    isStatusNamed "stopped".data (evError m) = false := rfl

theorem ready_not_starting (f : List (Str × JVal)) :
    isStatusNamed "ready".data (.status "starting".data f) = false := rfl

theorem ready_not_error (m : Str) :
    isStatusNamed "ready".data (evError m) = false := rfl

theorem filter_readyThenStopped_stopped (u : Str) (p : Nat) :
    (readyThenStopped u p).filter (isStatusNamed "stopped".data) =
      [Ev.status "stopped".data [("message".data, .s "Deployment stopped".data)]] := rfl

theorem filter_readyThenStopped_ready (u : Str) (p : Nat) :
    (readyThenStopped u p).filter (isStatusNamed "ready".data) =
      [Ev.status "ready".data
        [("url".data, .s u), ("port".data, .n (Int.ofNat p))]] := rfl

/-- An environment whose credential variable is absent. -/
def C1_env : DeployEnv :=
  { localapi_path := "localapi.py".data, pathStem := "localapi".data,
    pathName := "localapi.py".data, providedId := none, nowTs := "ts".data,
    localModeVar := [], synthApiKey := none, authRes := .ok "k".data,
    pathExists := true, load := .specNone, acquirePort := .ok 8001,
    serverStart := none, healthRes := none, tunnelRes := .ok "https://u".data }

/-- C1 counterexample: with the credential variable absent the session
emits TWO events - the `starting` status of deploy.py line 343 comes
before the key check of line 346 - so a single `error` status is not the
only emitted event. -/
theorem C1_counterexample :
    (deploy_localapi C1_env).1.length = 2 ∧
    ((deploy_localapi C1_env).1.filter (isStatusNamed "error".data)).length = 1 ∧
    isStatusNamed "error".data
      ((deploy_localapi C1_env).1.getD 0 (Ev.log [] [])) = false ∧
    isStatusNamed "starting".data
      ((deploy_localapi C1_env).1.getD 0 (Ev.log [] [])) = true := by
  decide

/-- C1 (amended): when the credential variable is absent (or empty, which
Python truthiness also rejects), the session emits exactly a `starting`
status followed by a single `error` status carrying the missing-key
message, and the Event Sink is shut down by the `finally` cleanup. -/
theorem C1_amended_missing_key_two_events (env : DeployEnv)
    (h : pyTruthyStr env.synthApiKey = false) :
    (deploy_localapi env).1 =
      [Ev.status "starting".data
          [("message".data, .s "Initializing deployment...".data)],
        evError ("SYNTH_API_KEY not set - run ".data ++ [apos] ++
          "synth auth".data ++ [apos] ++ " or export SYNTH_API_KEY".data)] ∧
    (deploy_localapi env).2 = true := by
  refine ⟨?_, rfl⟩
  simp [deploy_localapi, deployBody, h]

/-- Witness for C1 (amended) at the concrete missing-key environment. -/
theorem C1_witness :
    (deploy_localapi C1_env).1 =
      [Ev.status "starting".data
          [("message".data, .s "Initializing deployment...".data)],
        evError ("SYNTH_API_KEY not set - run ".data ++ [apos] ++
          "synth auth".data ++ [apos] ++ " or export SYNTH_API_KEY".data)] ∧
    (deploy_localapi C1_env).2 = true :=
  C1_amended_missing_key_two_events C1_env rfl

/-- The FastAPI app of the C2 module. -/
def C2_app : AppModel :=
  { isFastAPI := true, typeName := "FastAPI".data,
    routes := ["/health".data, "/rollout".data] }

/-- The valid module used by the C2 environment. -/
def C2_module : ModuleModel :=
  { app := some C2_app,
    get_dataset_size := none, get_sample := none, score_response := none }

/-- An environment whose health check fails: a fatal-error exit path. -/
def C2_env : DeployEnv :=
  { localapi_path := "api.py".data, pathStem := "api".data,
    pathName := "api.py".data, providedId := some "dep".data, nowTs := "ts".data,
    localModeVar := [], synthApiKey := some "sk".data, authRes := .ok "ek".data,
    pathExists := true, load := .loaded C2_module,
    acquirePort := .ok 8001, serverStart := none,
    healthRes := some "timeout".data, tunnelRes := .ok "https://u".data }

/-- C2 counterexample: on the health-check-failure exit path the routine
returns (the sink is shut down by the `finally` block) without ever
emitting a `stopped` status - only the cancellation path emits one. -/
theorem C2_counterexample :
    ((deploy_localapi C2_env).1.filter (isStatusNamed "stopped".data)).length = 0 ∧
    ((deploy_localapi C2_env).1.filter (isStatusNamed "error".data)).length = 1 ∧
    (deploy_localapi C2_env).2 = true := by
  decide

/-- C2 (amended): the Event Sink is shut down (the `finally` cleanup runs)
on every exit path of `deploy_localapi`, but a terminal `stopped` status
is emitted exactly on the runs that reach `ready` and are then cancelled
in the keep-alive wait: the number of `stopped` events always equals the
number of `ready` events, which is at most one; fatal-error paths return
after their `error` status with no `stopped` event. -/
theorem C2_amended_sink_shutdown_every_exit (env : DeployEnv) :
    (deploy_localapi env).2 = true ∧
    ((deploy_localapi env).1.filter (isStatusNamed "stopped".data)).length =
      ((deploy_localapi env).1.filter (isStatusNamed "ready".data)).length ∧
    ((deploy_localapi env).1.filter (isStatusNamed "ready".data)).length ≤ 1 := by
  obtain ⟨lp, pstem, pname, pid, ts, lmv, key, auth, pex, load, aport, sst, hlth, tun⟩ := env
  refine ⟨rfl, ?_⟩
  simp only [deploy_localapi, deployBody]
  cases hk : pyTruthyStr key with
  | false =>
    simp [isStatusNamed, evError, readyThenStopped, List.filter_append,
        List.filter_cons, List.filter_nil]
  | true =>
    cases auth with
    | error e =>
      simp [isStatusNamed, evError, readyThenStopped, List.filter_append,
        List.filter_cons, List.filter_nil]
    | ok k2 =>
      cases pex with
      | false =>
        simp [isStatusNamed, evError, readyThenStopped, List.filter_append,
        List.filter_cons, List.filter_nil]
      | true =>
        cases load with
        | specNone =>
          simp [isStatusNamed, evError, readyThenStopped, List.filter_append,
        List.filter_cons, List.filter_nil]
        | syntaxErr e =>
          simp [isStatusNamed, evError, readyThenStopped, List.filter_append,
        List.filter_cons, List.filter_nil]
        | importErr e =>
          simp [isStatusNamed, evError, readyThenStopped, List.filter_append,
        List.filter_cons, List.filter_nil]
        | otherErr e =>
          simp [isStatusNamed, evError, readyThenStopped, List.filter_append,
        List.filter_cons, List.filter_nil]
        | loaded m =>
          cases hv : validate_localapi m with
          | some ve =>
            simp [hv, isStatusNamed, evError, readyThenStopped, List.filter_append,
        List.filter_cons, List.filter_nil]
          | none =>
            cases aport with
            | error e =>
              simp [hv, isStatusNamed, evError, readyThenStopped, List.filter_append,
        List.filter_cons, List.filter_nil]
            | ok port =>
              cases sst with
              | some e =>
                simp [hv, isStatusNamed, evError, readyThenStopped, List.filter_append,
        List.filter_cons, List.filter_nil]
              | none =>
                cases hlth with
                | some e =>
                  simp [hv, isStatusNamed, evError, readyThenStopped, List.filter_append,
        List.filter_cons, List.filter_nil]
                | none =>
                  cases hlm : localModeOf lmv with
                  | true =>
                    simp [hv, isStatusNamed, evError, readyThenStopped, List.filter_append,
        List.filter_cons, List.filter_nil]
                  | false =>
                    cases tun with
                    | error e =>
                      simp [hv, isStatusNamed, evError, readyThenStopped, List.filter_append,
        List.filter_cons, List.filter_nil]
                    | ok url =>
                      simp [hv, isStatusNamed, evError, readyThenStopped, List.filter_append,
        List.filter_cons, List.filter_nil]
